import Mathlib

/-!
Verification development for the voice-recognition alarm backend
(`server.js`).  JavaScript strings are modelled as lists of UTF-16 code
units (`List Nat`); the similarity score is modelled exactly, as the
fraction `(2·|intersection|, |bigrams1| + |bigrams2|)` whose rational
value (`Option ℚ`, `none` standing for the JavaScript `NaN` produced by
`0/0`) is taken only at the statement level.  Threshold comparisons with
the literals `0.7` and `0.8` are exact for every score the bigram
fraction can take, so they are rendered as exact rational comparisons.

Each definition is a direct translation of the correspondingly named
function of `server.js`; the event-driven parts (WebSocket connection
handling, the buffered AssemblyAI timer) are embedded as explicit state
machines whose steps mirror the statements of the corresponding JS
handlers.
-/

/-- Code units of a string literal (ASCII inputs: code unit = code point). -/
def S (s : String) : List Nat := s.data.map Char.toNat

/-- The whitespace class of JavaScript's `\s` (regex) / `String.prototype.trim`,
restricted to the code units it actually matches. -/
def jsIsWs (c : Nat) : Bool :=
  decide (c = 9 ∨ c = 10 ∨ c = 11 ∨ c = 12 ∨ c = 13 ∨ c = 32 ∨ c = 160 ∨ c = 5760 ∨
    (8192 ≤ c ∧ c ≤ 8202) ∨ c = 8232 ∨ c = 8233 ∨ c = 8239 ∨ c = 8287 ∨ c = 12288 ∨
    c = 65279)

/-- One code unit of `String.prototype.toLowerCase` (simple ASCII mapping,
which is all the server's inputs exercise). -/
def jsCharLower (c : Nat) : Nat :=
  if 65 ≤ c ∧ c ≤ 90 then c + 32 else c

/-- `String.prototype.toLowerCase`. -/
def jsToLower (l : List Nat) : List Nat := l.map jsCharLower

/-- `String.prototype.trim`. -/
def jsTrim (l : List Nat) : List Nat :=
  ((l.dropWhile jsIsWs).reverse.dropWhile jsIsWs).reverse

/-- Whether `hay` begins with `pat` (helper for `jsIncludes`). -/
def listStartsWith : List Nat → List Nat → Bool
  | _, [] => true
  | [], _ :: _ => false
  | c :: cs, d :: ds => c == d && listStartsWith cs ds

/-- `String.prototype.includes`: `pat` occurs as a contiguous substring of
`hay` (the empty pattern always matches, as in JavaScript). -/
def jsIncludes (hay pat : List Nat) : Bool :=
  match hay with
  | [] => listStartsWith [] pat
  | _ :: t => listStartsWith hay pat || jsIncludes t pat

/-- `transcript.split(/\s+/)`: the pieces of the string between maximal
whitespace runs; a leading or trailing run contributes an empty piece,
exactly as JavaScript's `split` with a regexp separator does. -/
def splitWs : List Nat → List (List Nat)
  | [] => [[]]
  | [c] => if jsIsWs c then [[], []] else [[c]]
  | c :: d :: cs =>
    let r := splitWs (d :: cs)
    if jsIsWs c then
      if jsIsWs d then r else [] :: r
    else
      match r with
      | [] => [[c]]
      | t :: ts => (c :: t) :: ts

/-- `getBigrams` of `server.js`: the list of all 2-code-unit substrings,
in order, with duplicates kept (`str.substring(i, i+2)` for each `i`). -/
def getBigrams : List Nat → List (List Nat)
  | a :: b :: rest => [a, b] :: getBigrams (b :: rest)
  | _ => []

/-- The exact value of `server.js`'s similarity fraction, kept unreduced:
`(2 * intersection.length, bigrams1.length + bigrams2.length)` where
`intersection = bigrams1.filter(bigram => bigrams2.includes(bigram))`. -/
def simPair (str1 str2 : List Nat) : Nat × Nat :=
  let bigrams1 := getBigrams str1
  let bigrams2 := getBigrams str2
  let inter := bigrams1.filter (fun bg => bigrams2.contains bg)
  (2 * inter.length, bigrams1.length + bigrams2.length)

/-- `calculateSimilarity` of `server.js`:
`(2.0 * intersection.length) / (bigrams1.length + bigrams2.length)`.
The division is exact except when both bigram lists are empty, where
JavaScript produces `0/0 = NaN`; that case is `none`. -/
def calculateSimilarity (str1 str2 : List Nat) : Option ℚ :=
  let p := simPair str1 str2
  if p.2 = 0 then none else some ((p.1 : ℚ) / (p.2 : ℚ))

/-- The comparison `calculateSimilarity(word, trigger) >= 0.7` of the fuzzy
loop, as the equivalent exact comparison on the unreduced fraction
(`NaN >= 0.7` is false, hence the zero-denominator guard). -/
def simGeFuzzy (str1 str2 : List Nat) : Bool :=
  let p := simPair str1 str2
  decide (p.2 ≠ 0 ∧ 7 * p.2 ≤ 10 * p.1)

/-- The comparison `similarity > 0.8` of `checkTriggerWords`, as the
equivalent exact comparison on the unreduced fraction (`NaN > 0.8` is
false; a zero denominator forces a zero numerator, so no extra guard is
needed). -/
def simGtStreaming (str1 str2 : List Nat) : Bool :=
  let p := simPair str1 str2
  decide (4 * p.2 < 5 * p.1)

/-- Which of the three strategies of the `/api/process-audio` trigger loop
produced a descriptor. -/
inductive MatchKind where
  | exactMatch
  | substrMatch
  | fuzzyMatch
deriving DecidableEq

/-- One entry of the `triggeredWords` array: the JS code pushes a formatted
string per hit; here the same information is kept structured.  `score` is
the unreduced similarity fraction of a fuzzy hit. -/
structure TMatch where
  phrase : List Nat
  kind : MatchKind
  matchedWord : Option (List Nat)
  score : Option (Nat × Nat)
deriving DecidableEq

/-- `checkTriggerWords` of `server.js` (used by both WebSocket backends):
some trigger word is a substring of the lower-cased transcript, or the
similarity of the whole lower-cased transcript with the word exceeds 0.8. -/
def checkTriggerWords (triggerWords : List (List Nat)) (transcript : List Nat) : Bool :=
  let lowerTranscript := jsToLower transcript
  triggerWords.any (fun word =>
    jsIncludes lowerTranscript word || simGtStreaming lowerTranscript word)

/-- Method 2 of the `/api/process-audio` loop: first transcript word that
contains the trigger or is contained in it, both at least 2 long (the JS
code checks containment first and only then the lengths; a word that fails
the length check just lets the loop continue, so the first hit is the
first word satisfying the conjunction). -/
def method2Hit (transcriptWords : List (List Nat)) (t : List Nat) : Option (List Nat) :=
  transcriptWords.find? (fun word =>
    (jsIncludes word t || jsIncludes t word) && decide (2 ≤ word.length) &&
      decide (2 ≤ t.length))

/-- Method 3 of the `/api/process-audio` loop: first transcript word of
length at least 3 (with the trigger also at least 3) whose similarity with
the trigger is at least 0.7. -/
def method3Hit (transcriptWords : List (List Nat)) (t : List Nat) : Option (List Nat) :=
  transcriptWords.find? (fun word =>
    decide (3 ≤ word.length) && decide (3 ≤ t.length) && simGeFuzzy word t)

/-- The descriptors one configured trigger word contributes in the
`/api/process-audio` loop: an exact hit short-circuits (`continue`);
otherwise the substring and fuzzy methods run independently and may both
contribute. -/
def detectOne (transcriptLower : List Nat) (transcriptWords : List (List Nat))
    (triggerWord : List Nat) : List TMatch :=
  let t := jsToLower (jsTrim triggerWord)
  if jsIncludes transcriptLower t then [⟨t, .exactMatch, none, none⟩]
  else
    (match method2Hit transcriptWords t with
     | some word => [⟨t, .substrMatch, some word, none⟩]
     | none => []) ++
    (match method3Hit transcriptWords t with
     | some word => [⟨t, .fuzzyMatch, some word, some (simPair word t)⟩]
     | none => [])

/-- The whole trigger-detection block of `/api/process-audio`
(the loop building `triggeredWords`). -/
def processAudioDetect (transcript : List Nat) (triggerWords : List (List Nat)) :
    List TMatch :=
  let transcriptLower := jsToLower transcript
  let transcriptWords := splitWs transcriptLower
  triggerWords.flatMap (detectOne transcriptLower transcriptWords)

/-- A pending result as stored in the `deviceResults` map: the three write
sites of `server.js` all store `triggered: true` together with the
transcription, its confidence and the current ISO timestamp (`now` below);
only the `/api/process-audio` site additionally stores `triggeredWords`. -/
structure PendingResult where
  transcription : List Nat
  confidence : ℚ
  triggered : Bool
  triggeredWords : Option (List TMatch)
  timestamp : List Nat
deriving DecidableEq

/-- The process-wide `deviceResults` map (device id → pending result). -/
def Mailbox : Type := List Nat → Option PendingResult

/-- `deviceResults.set(deviceId, {...})`. -/
def mailboxSet (d : List Nat) (r : PendingResult) (m : Mailbox) : Mailbox :=
  fun x => if x = d then some r else m x

/-- `deviceResults` with no entry. -/
def emptyMailbox : Mailbox := fun _ => none

/-- The `/api/device/:deviceId/status` handler: on a hit it deletes the
entry and answers `triggered: true` plus the stored result; on a miss it
answers `triggered: false` and leaves the map alone. -/
def deviceStatusEndpoint (d : List Nat) (m : Mailbox) :
    (Bool × Option PendingResult) × Mailbox :=
  match m d with
  | some result => ((true, some result), fun x => if x = d then none else m x)
  | none => ((false, none), m)

/-- A JSON frame pushed to the device over its WebSocket: either the
`{command: 'ALARM', ...}` frame or the informational
`{type: 'transcription', ...}` frame. -/
inductive OutFrame where
  | alarmFrame (transcription : List Nat) (confidence : ℚ)
  | infoFrame (transcription : List Nat) (confidence : ℚ)
deriving DecidableEq

/-- `transcript.confidence || 0` (an absent or zero confidence is replaced
by `0`). -/
def jsOrZero (c : Option ℚ) : ℚ :=
  match c with
  | none => 0
  | some q => q

/-- The Deepgram `Transcript` event handler of the WebSocket session
(`server.js` lines 103–140): skip empty/whitespace-only transcripts; run
`checkTriggerWords`; on a trigger store a `triggered: true` result in the
mailbox and, if the socket is open, push an ALARM frame; otherwise, if the
socket is open, push an informational frame.  `wsOpen` models
`ws.readyState === WebSocket.OPEN`; `now` models
`new Date().toISOString()`. -/
def onDeepgramTranscript (triggerWords : List (List Nat)) (deviceId : List Nat)
    (wsOpen : Bool) (m : Mailbox) (now : List Nat)
    (transcript : List Nat) (confidence : ℚ) : Mailbox × List OutFrame :=
  if !transcript.isEmpty && decide (0 < (jsTrim transcript).length) then
    if checkTriggerWords triggerWords transcript then
      (mailboxSet deviceId ⟨transcript, confidence, true, none, now⟩ m,
       if wsOpen then [.alarmFrame transcript confidence] else [])
    else
      (m, if wsOpen then [.infoFrame transcript confidence] else [])
  else
    (m, [])

/-- The tail of `processAssemblyAIBuffer` (`server.js` lines 233–266),
after the external transcription call returned `text` (possibly absent)
and `confidence` (possibly absent): identical trigger/mailbox/push logic
to the Deepgram handler, with `confidence || 0`. -/
def processAssemblyAIResult (triggerWords : List (List Nat)) (deviceId : List Nat)
    (wsOpen : Bool) (m : Mailbox) (now : List Nat)
    (text : Option (List Nat)) (confidence : Option ℚ) : Mailbox × List OutFrame :=
  match text with
  | none => (m, [])
  | some t =>
    if !t.isEmpty && decide (0 < (jsTrim t).length) then
      if checkTriggerWords triggerWords t then
        (mailboxSet deviceId ⟨t, jsOrZero confidence, true, none, now⟩ m,
         if wsOpen then [.alarmFrame t (jsOrZero confidence)] else [])
      else
        (m, if wsOpen then [.infoFrame t (jsOrZero confidence)] else [])
    else (m, [])

/-- The mailbox-write tail of `/api/process-audio` (`server.js` lines
514–573): run the three-strategy detection, and store a `triggered: true`
result only when the `x-device-id` header is present and truthy and some
descriptor was produced. -/
def processAudioStore (triggerWords : List (List Nat)) (deviceId : Option (List Nat))
    (transcript : List Nat) (confidence : ℚ) (m : Mailbox) (now : List Nat) : Mailbox :=
  let found := processAudioDetect transcript triggerWords
  match deviceId with
  | some d =>
    if !d.isEmpty && !found.isEmpty then
      mailboxSet d ⟨transcript, confidence, true, some found, now⟩ m
    else m
  | none => m

/-- A JSON value as far as the `/api/config/trigger-words` handler can
observe it: an array, a string, or anything else carrying only its
truthiness. -/
inductive JVal where
  | vArr (xs : List JVal)
  | vStr (s : List Nat)
  | vOther (truthy : Bool)

/-- JavaScript truthiness of the optional `words` field (`undefined` and
the empty string are falsy; arrays are truthy). -/
def jvTruthy : Option JVal → Bool
  | none => false
  | some (.vArr _) => true
  | some (.vStr s) => !s.isEmpty
  | some (.vOther t) => t

/-- `Array.isArray(words)`. -/
def jvIsArray : Option JVal → Bool
  | some (.vArr _) => true
  | _ => false

/-- `w.toLowerCase().trim()`; throws (`none`) when `w` is not a string. -/
def jvLowerTrim : JVal → Option (List Nat)
  | .vStr s => some (jsTrim (jsToLower s))
  | _ => none

/-- `words.map(w => w.toLowerCase().trim())`: left-to-right, aborting at
the first non-string element exactly as the JS `TypeError` would. -/
def mapLowerTrim : List JVal → Option (List (List Nat))
  | [] => some []
  | x :: xs =>
    match jvLowerTrim x with
    | none => none
    | some s =>
      match mapLowerTrim xs with
      | none => none
      | some rest => some (s :: rest)

/-- Outcome of a `/api/config/trigger-words` request: the 400 rejection,
a successful replacement, or a thrown `TypeError` escaping the handler. -/
inductive UpdOutcome where
  | rejected
  | replaced
  | threw
deriving DecidableEq

/-- The `/api/config/trigger-words` handler (`server.js` lines 700–720):
reject unless `words` is a truthy array; otherwise `TRIGGER_WORDS.length = 0`
runs first and then `push(...words.map(...))`, so a element without
`toLowerCase` leaves the list cleared (`threw` case). -/
def updateTriggerWords (words : Option JVal) (current : List (List Nat)) :
    UpdOutcome × List (List Nat) :=
  if !jvTruthy words || !jvIsArray words then (.rejected, current)
  else
    match words with
    | some (.vArr xs) =>
      match mapLowerTrim xs with
      | some ws => (.replaced, ws)
      | none => (.threw, [])
    | _ => (.rejected, current)

/-- The per-connection closure state of one `wss.on('connection')`
invocation under `SPEECH_API = 'deepgram'`: the device id parsed from the
URL, whether the closure's `deepgramConnection` is still live, and the
frames it has forwarded to that Deepgram connection. -/
structure ConnState where
  deviceId : List Nat
  dgOpen : Bool
  forwarded : List (List Nat)
deriving DecidableEq

/-- The WebSocket server state: the process-wide `deviceConnections` map
(device id → connection id of the most recent `set`) and every
connection's closure state. -/
structure WsState where
  registry : List Nat → Option Nat
  conns : Nat → Option ConnState

/-- Events driving the WebSocket server: a new connection for a device id,
a binary audio frame on an (open) connection, and a connection close. -/
inductive WsEvent where
  | connect (cid : Nat) (d : List Nat)
  | binary (cid : Nat) (frame : List Nat)
  | closeConn (cid : Nat)

/-- One step of the `server.js` WebSocket logic.
`connect`: `deviceConnections.set(deviceId, ws)` plus a fresh closure with
its own live Deepgram connection — nothing else: the code never touches a
previous connection registered under the same device id.
`binary`: the `ws.on('message')` handler forwards the frame to the
closure's own `deepgramConnection` whenever that is non-null, without
consulting the registry.
`closeConn`: `deviceConnections.delete(deviceId)` (keyed by the closing
connection's device id) and `deepgramConnection.finish()`. -/
def wsStep (s : WsState) : WsEvent → WsState
  | .connect cid d =>
    { registry := fun x => if x = d then some cid else s.registry x
      conns := fun x => if x = cid then some ⟨d, true, []⟩ else s.conns x }
  | .binary cid f =>
    match s.conns cid with
    | some c =>
      if c.dgOpen then
        { s with conns := fun x =>
            if x = cid then some ⟨c.deviceId, c.dgOpen, c.forwarded ++ [f]⟩ else s.conns x }
      else s
    | none => s
  | .closeConn cid =>
    match s.conns cid with
    | some c =>
      { registry := fun x => if x = c.deviceId then none else s.registry x
        conns := fun x => if x = cid then some ⟨c.deviceId, false, c.forwarded⟩ else s.conns x }
    | none => s

/-- The initial WebSocket server state: no registrations, no connections. -/
def wsInit : WsState := ⟨fun _ => none, fun _ => none⟩

/-- Run a sequence of WebSocket events from the initial state. -/
def wsRun (events : List WsEvent) : WsState := events.foldl wsStep wsInit

/-- State of one session's buffered AssemblyAI path: the `audioBuffer`
accumulator and the number of `processAssemblyAIBuffer` calls currently
in flight. -/
structure BufState where
  acc : List (List Nat)
  inFlight : Nat
deriving DecidableEq

/-- Events of the buffered path: an inbound audio frame, a
`setInterval` tick, and the completion of an outstanding flush. -/
inductive BufEvent where
  | push (frame : List Nat)
  | tick
  | complete

/-- One step of the buffered path.  The tick handler of `server.js`
(lines 157–163) checks only `audioBuffer.length > 0`: it swaps the
accumulator out and starts a new `processAssemblyAIBuffer` call without
ever consulting how many are still in flight (`setInterval` keeps firing
while an earlier `await` is pending). -/
def bufStep (s : BufState) : BufEvent → BufState
  | .push f => ⟨s.acc ++ [f], s.inFlight⟩
  | .tick => if s.acc.isEmpty then s else ⟨[], s.inFlight + 1⟩
  | .complete => ⟨s.acc, s.inFlight - 1⟩

/-- Run a sequence of buffered-path events from the initial state. -/
def bufRun (events : List BufEvent) : BufState := events.foldl bufStep ⟨[], 0⟩

theorem getBigrams_length : ∀ l : List Nat, (getBigrams l).length = l.length - 1 := by
  intro l
  induction l with
  | nil => rfl
  | cons a t ih =>
    cases t with
    | nil => rfl
    | cons b r =>
      simp only [getBigrams, List.length_cons] at ih ⊢
      omega

theorem getBigrams_eq_nil_of_short (l : List Nat) (h : l.length < 2) : getBigrams l = [] := by
  have := getBigrams_length l
  exact List.eq_nil_of_length_eq_zero (by omega)

theorem filter_contains_nil (l : List (List Nat)) :
    l.filter (fun bg => ([] : List (List Nat)).contains bg) = [] := by
  induction l with
  | nil => rfl
  | cons a t ih => simp [List.filter]

theorem simPair_num_le (str1 str2 : List Nat) :
    (simPair str1 str2).1 ≤ 2 * (simPair str1 str2).2 := by
  simp only [simPair]
  have := List.length_filter_le (fun bg => (getBigrams str2).contains bg) (getBigrams str1)
  omega

/-- The rational reading of `simGeFuzzy`. -/
theorem simGeFuzzy_iff (str1 str2 : List Nat) :
    simGeFuzzy str1 str2 = true ↔
      ∃ q : ℚ, calculateSimilarity str1 str2 = some q ∧ (7 : ℚ)/10 ≤ q := by
  simp only [simGeFuzzy, calculateSimilarity, decide_eq_true_eq]
  constructor
  · rintro ⟨hz, hle⟩
    have hpos : (0 : ℚ) < ((simPair str1 str2).2 : ℚ) := by
      exact_mod_cast Nat.pos_of_ne_zero hz
    refine ⟨_, by rw [if_neg hz], ?_⟩
    rw [div_le_div_iff₀ (by norm_num) hpos]
    have hc : ((7 * (simPair str1 str2).2 : ℕ) : ℚ) ≤ ((10 * (simPair str1 str2).1 : ℕ) : ℚ) := by
      exact_mod_cast hle
    push_cast at hc
    linarith
  · rintro ⟨q, hq, hle⟩
    by_cases hz : (simPair str1 str2).2 = 0
    · rw [if_pos hz] at hq; exact absurd hq (by simp)
    · have hpos : (0 : ℚ) < ((simPair str1 str2).2 : ℚ) := by
        exact_mod_cast Nat.pos_of_ne_zero hz
      rw [if_neg hz] at hq
      refine ⟨hz, ?_⟩
      rw [← Option.some.inj hq] at hle
      rw [div_le_div_iff₀ (by norm_num) hpos] at hle
      have hc : ((7 * (simPair str1 str2).2 : ℕ) : ℚ) ≤ ((10 * (simPair str1 str2).1 : ℕ) : ℚ) := by
        push_cast
        linarith
      exact_mod_cast hc

/-- The rational reading of `simGtStreaming`. -/
theorem simGtStreaming_iff (str1 str2 : List Nat) :
    simGtStreaming str1 str2 = true ↔
      ∃ q : ℚ, calculateSimilarity str1 str2 = some q ∧ (4 : ℚ)/5 < q := by
  simp only [simGtStreaming, calculateSimilarity, decide_eq_true_eq]
  constructor
  · intro hlt
    have hnl := simPair_num_le str1 str2
    have hz : (simPair str1 str2).2 ≠ 0 := by omega
    have hpos : (0 : ℚ) < ((simPair str1 str2).2 : ℚ) := by
      exact_mod_cast Nat.pos_of_ne_zero hz
    refine ⟨_, by rw [if_neg hz], ?_⟩
    rw [div_lt_div_iff₀ (by norm_num) hpos]
    have hc : ((4 * (simPair str1 str2).2 : ℕ) : ℚ) < ((5 * (simPair str1 str2).1 : ℕ) : ℚ) := by
      exact_mod_cast hlt
    push_cast at hc
    linarith
  · rintro ⟨q, hq, hlt⟩
    by_cases hz : (simPair str1 str2).2 = 0
    · rw [if_pos hz] at hq; exact absurd hq (by simp)
    · have hpos : (0 : ℚ) < ((simPair str1 str2).2 : ℚ) := by
        exact_mod_cast Nat.pos_of_ne_zero hz
      rw [if_neg hz] at hq
      rw [← Option.some.inj hq] at hlt
      rw [div_lt_div_iff₀ (by norm_num) hpos] at hlt
      have hc : ((4 * (simPair str1 str2).2 : ℕ) : ℚ) < ((5 * (simPair str1 str2).1 : ℕ) : ℚ) := by
        push_cast
        linarith
      exact_mod_cast hc

/-- C3 as stated is false: the "intersection" keeps every duplicate of the
left operand's bigrams, so `calculateSimilarity("aaaa","aab") = 6/5 > 1`;
moreover when both inputs are shorter than 2 characters the JavaScript
division is `0/0 = NaN` (modelled `none`), not `0`. -/
theorem calculateSimilarity_not_unit_interval :
    calculateSimilarity (S ("aaaa")) (S ("aab")) = some (6/5) ∧
    ¬ ((6 : ℚ)/5 ≤ 1) ∧
    calculateSimilarity (S ("")) (S ("")) = none := by
  have h1 : simPair (S ("aaaa")) (S ("aab")) = (6, 5) := by decide
  have h2 : simPair (S ("")) (S ("")) = (0, 0) := by decide
  refine ⟨?_, by norm_num, ?_⟩
  · simp only [calculateSimilarity, h1]
    norm_num
  · simp only [calculateSimilarity, h2]
    simp

/-- C3 amended: `calculateSimilarity(a,b)` is `NaN` (modelled `none`)
exactly when both inputs are shorter than 2 code units; every numeric
result is nonnegative (but may exceed 1); and when exactly one input is
shorter than 2 code units the score is `0`. -/
theorem calculateSimilarity_range (a b : List Nat) :
    (calculateSimilarity a b = none ↔ a.length < 2 ∧ b.length < 2) ∧
    (∀ q : ℚ, calculateSimilarity a b = some q → 0 ≤ q) ∧
    (a.length < 2 → 2 ≤ b.length → calculateSimilarity a b = some 0) ∧
    (b.length < 2 → 2 ≤ a.length → calculateSimilarity a b = some 0) := by
  have hga := getBigrams_length a
  have hgb := getBigrams_length b
  simp only [calculateSimilarity, simPair]
  split
  · next hd =>
    refine ⟨⟨fun _ => by omega, fun _ => rfl⟩, by simp, ?_, ?_⟩
    · intro _ h2
      exact absurd hd (by omega)
    · intro _ h2
      exact absurd hd (by omega)
  · next hd =>
    refine ⟨⟨fun h => absurd h (by simp), fun hab => absurd (show (getBigrams a).length + (getBigrams b).length = 0 by omega) hd⟩, ?_, ?_, ?_⟩
    · intro q hq
      rw [← Option.some.inj hq]
      positivity
    · intro h1 _
      have ha0 : getBigrams a = [] := getBigrams_eq_nil_of_short a h1
      rw [ha0]
      simp
    · intro h1 _
      have hb0 : getBigrams b = [] := getBigrams_eq_nil_of_short b h1
      rw [hb0, filter_contains_nil]
      simp

theorem calculateSimilarity_range_witness :
    calculateSimilarity (S ("a")) (S ("ab")) = some 0 :=
  (calculateSimilarity_range (S ("a")) (S ("ab"))).2.2.1 (by decide) (by decide)

theorem filter_contains_length_comm (l1 l2 : List (List Nat))
    (h1 : l1.Nodup) (h2 : l2.Nodup) :
    (l1.filter (fun x => l2.contains x)).length =
    (l2.filter (fun x => l1.contains x)).length := by
  have key : ∀ (u v : List (List Nat)), u.Nodup →
      (u.filter (fun x => v.contains x)).length = (u.toFinset ∩ v.toFinset).card := by
    intro u v hu
    rw [← List.toFinset_card_of_nodup (hu.filter _), List.toFinset_filter]
    congr 1
    ext x
    simp [List.mem_toFinset, Finset.mem_inter, List.elem_iff, List.contains]
  rw [key l1 l2 h1, key l2 l1 h2, Finset.inter_comm]

/-- C8 as stated is false: the intersection counts multiplicities from the
left argument only, so `calculateSimilarity` is not symmetric:
`sim("aaa","aab") = 1` but `sim("aab","aaa") = 1/2`. -/
theorem calculateSimilarity_asymmetric :
    calculateSimilarity (S ("aaa")) (S ("aab")) = some 1 ∧
    calculateSimilarity (S ("aab")) (S ("aaa")) = some (1/2) ∧
    (1 : ℚ) ≠ 1/2 := by
  have h1 : simPair (S ("aaa")) (S ("aab")) = (4, 4) := by decide
  have h2 : simPair (S ("aab")) (S ("aaa")) = (2, 4) := by decide
  refine ⟨?_, ?_, by norm_num⟩
  · simp only [calculateSimilarity, h1]
    norm_num
  · simp only [calculateSimilarity, h2]
    norm_num

/-- C8 amended: `calculateSimilarity` is symmetric whenever neither input
contains a repeated bigram (symmetry can only fail through duplicate
bigrams kept by the left-biased filter). -/
theorem calculateSimilarity_symm_of_nodup (a b : List Nat)
    (ha : (getBigrams a).Nodup) (hb : (getBigrams b).Nodup) :
    calculateSimilarity a b = calculateSimilarity b a := by
  have hl := filter_contains_length_comm (getBigrams a) (getBigrams b) ha hb
  simp only [calculateSimilarity, simPair, hl, Nat.add_comm ((getBigrams a).length)]

theorem calculateSimilarity_symm_witness :
    calculateSimilarity (S ("ab")) (S ("bc")) = calculateSimilarity (S ("bc")) (S ("ab")) :=
  calculateSimilarity_symm_of_nodup _ _ (by decide) (by decide)

/-- C4 as stated is false: for trigger word "alarm" and transcript
"sound the alaam now" the `/api/process-audio` detector emits no match at
all: there is no exact or substring hit, and the similarity of "alaam" and
"alarm" is 1/2, below the 0.7 fuzzy threshold. -/
theorem alaam_no_match :
    processAudioDetect (S ("sound the alaam now")) [S ("alarm")] = [] ∧
    calculateSimilarity (S ("alaam")) (S ("alarm")) = some (1/2) := by
  constructor
  · decide
  · have h : simPair (S ("alaam")) (S ("alarm")) = (4, 8) := by decide
    simp only [calculateSimilarity, h]
    norm_num

/-- C4 amended: "sound the alaam now" yields no match (the score of
"alaam" against "alarm" is 1/2 < 0.7); a transcript word must reach
similarity 0.7 for a fuzzy descriptor, as "alarn" does with score 3/4. -/
theorem alarn_fuzzy_match :
    processAudioDetect (S ("sound the alaam now")) [S ("alarm")] = [] ∧
    processAudioDetect (S ("sound the alarn now")) [S ("alarm")] =
      [⟨S ("alarm"), .fuzzyMatch, some (S ("alarn")), some (6, 8)⟩] ∧
    calculateSimilarity (S ("alarn")) (S ("alarm")) = some (3/4) ∧
    (7 : ℚ)/10 ≤ 3/4 := by
  refine ⟨by decide, by decide, ?_, by norm_num⟩
  have h : simPair (S ("alarn")) (S ("alarm")) = (6, 8) := by decide
  simp only [calculateSimilarity, h]
  norm_num


/-- C2: two `set`s for the same device then a take: the take returns the
second result only and removes the entry, so an immediately following
second take reports nothing pending. -/
theorem mailbox_consume_once (d : List Nat) (r1 r2 : PendingResult) (m : Mailbox) :
    (deviceStatusEndpoint d (mailboxSet d r2 (mailboxSet d r1 m))).1 = (true, some r2) ∧
    (deviceStatusEndpoint d
      ((deviceStatusEndpoint d (mailboxSet d r2 (mailboxSet d r1 m))).2)).1 = (false, none) := by
  constructor <;> simp [deviceStatusEndpoint, mailboxSet]

/-- C5 as stated is false: the streaming (Deepgram) transcript handler
calls `checkTriggerWords`, not the three-strategy 0.70 detector of
`/api/process-audio`.  With trigger word "alarm" and transcript "alarn"
the three-strategy detector fires (fuzzy, 3/4 ≥ 0.7) but the streaming
handler pushes only an informational frame and writes nothing to the
mailbox (no substring hit, and whole-transcript similarity 3/4 is not
greater than 0.8). -/
theorem streaming_path_not_three_strategy :
    (onDeepgramTranscript [S ("alarm")] (S ("dev1")) true emptyMailbox (S ("t0"))
      (S ("alarn")) 1).1 (S ("dev1")) = none ∧
    (onDeepgramTranscript [S ("alarm")] (S ("dev1")) true emptyMailbox (S ("t0"))
      (S ("alarn")) 1).2 = [.infoFrame (S ("alarn")) 1] ∧
    processAudioDetect (S ("alarn")) [S ("alarm")] ≠ [] := by
  refine ⟨rfl, by decide, by decide⟩

/-- C5 amended: on the streaming path a trigger fires — a `triggered: true`
result is written to the mailbox and (if the socket is open) an ALARM
frame is pushed — exactly when the transcript is non-empty after trimming
and `checkTriggerWords` holds, i.e. some configured trigger word is a
substring of the lower-cased transcript or the similarity of the whole
lower-cased transcript with that word is strictly greater than 0.8.  The
0.70 per-word detector plays no role on this path. -/
theorem streaming_trigger_behavior (triggerWords : List (List Nat)) (deviceId : List Nat)
    (wsOpen : Bool) (m : Mailbox) (now transcript : List Nat) (confidence : ℚ) :
    (checkTriggerWords triggerWords transcript = true ↔
      ∃ w ∈ triggerWords, jsIncludes (jsToLower transcript) w = true ∨
        ∃ q : ℚ, calculateSimilarity (jsToLower transcript) w = some q ∧ (4 : ℚ)/5 < q) ∧
    ((0 < (jsTrim transcript).length ∧ checkTriggerWords triggerWords transcript = true) →
      onDeepgramTranscript triggerWords deviceId wsOpen m now transcript confidence =
        (mailboxSet deviceId ⟨transcript, confidence, true, none, now⟩ m,
         if wsOpen then [.alarmFrame transcript confidence] else [])) ∧
    (¬ (0 < (jsTrim transcript).length ∧ checkTriggerWords triggerWords transcript = true) →
      (onDeepgramTranscript triggerWords deviceId wsOpen m now transcript confidence).1 = m ∧
      ∀ t c, OutFrame.alarmFrame t c ∉
        (onDeepgramTranscript triggerWords deviceId wsOpen m now transcript confidence).2) := by
  refine ⟨?_, ?_, ?_⟩
  · simp only [checkTriggerWords, List.any_eq_true, Bool.or_eq_true]
    constructor
    · rintro ⟨w, hw, h | h⟩
      · exact ⟨w, hw, Or.inl h⟩
      · exact ⟨w, hw, Or.inr ((simGtStreaming_iff _ _).1 h)⟩
    · rintro ⟨w, hw, h | h⟩
      · exact ⟨w, hw, Or.inl h⟩
      · exact ⟨w, hw, Or.inr ((simGtStreaming_iff _ _).2 h)⟩
  · rintro ⟨h1, h2⟩
    have hne : transcript ≠ [] := by
      intro h
      subst h
      simp [jsTrim] at h1
    have hg : (!transcript.isEmpty && decide (0 < (jsTrim transcript).length)) = true := by
      simp [List.isEmpty_iff, hne, h1]
    simp [onDeepgramTranscript, hg, h2]
  · intro h
    by_cases h1 : 0 < (jsTrim transcript).length
    · have h2 : checkTriggerWords triggerWords transcript = false :=
        Bool.eq_false_iff.2 (fun hc => h ⟨h1, hc⟩)
      have hne : transcript ≠ [] := by
        intro hx
        subst hx
        simp [jsTrim] at h1
      have hg : (!transcript.isEmpty && decide (0 < (jsTrim transcript).length)) = true := by
        simp [List.isEmpty_iff, hne, h1]
      refine ⟨by simp [onDeepgramTranscript, hg, h2], ?_⟩
      intro t c
      cases wsOpen <;> simp [onDeepgramTranscript, hg, h2]
    · have hg : (!transcript.isEmpty && decide (0 < (jsTrim transcript).length)) = false := by
        simp [h1]
      refine ⟨by simp [onDeepgramTranscript, hg], ?_⟩
      intro t c
      simp [onDeepgramTranscript, hg]

theorem streaming_trigger_behavior_witness :
    onDeepgramTranscript [S ("alarm")] (S ("d")) true emptyMailbox (S ("t0"))
      (S ("the alarm")) 1 =
      (mailboxSet (S ("d")) ⟨S ("the alarm"), 1, true, none, S ("t0")⟩ emptyMailbox,
       [.alarmFrame (S ("the alarm")) 1]) :=
  (streaming_trigger_behavior [S ("alarm")] (S ("d")) true emptyMailbox (S ("t0"))
    (S ("the alarm")) 1).2.1 ⟨by decide, by decide⟩

theorem jsIsWs_jsCharLower (c : Nat) : jsIsWs (jsCharLower c) = jsIsWs c := by
  unfold jsCharLower
  split
  · next h =>
    have h1 : jsIsWs (c + 32) = false := by
      simp only [jsIsWs, decide_eq_false_iff_not]
      omega
    have h2 : jsIsWs c = false := by
      simp only [jsIsWs, decide_eq_false_iff_not]
      omega
    rw [h1, h2]
  · rfl

theorem all_ws_toLower (l : List Nat) : (jsToLower l).all jsIsWs = l.all jsIsWs := by
  rw [jsToLower, List.all_map]
  have h : (jsIsWs ∘ jsCharLower) = jsIsWs := funext jsIsWs_jsCharLower
  rw [h]

theorem trim_nil_of_all_ws (l : List Nat) (h : l.all jsIsWs = true) : jsTrim l = [] := by
  have h1 : l.dropWhile jsIsWs = [] :=
    List.dropWhile_eq_nil_iff.2 (fun x hx => List.all_eq_true.1 h x hx)
  rw [jsTrim, h1]
  rfl

theorem dropWhile_head_not (p : Nat → Bool) :
    ∀ (l : List Nat) (x : Nat) (xs : List Nat), l.dropWhile p = x :: xs → p x = false := by
  intro l
  induction l with
  | nil =>
    intro x xs h
    simp [List.dropWhile] at h
  | cons a t ih =>
    intro x xs h
    rw [List.dropWhile_cons] at h
    by_cases hpa : p a = true
    · rw [if_pos hpa] at h
      exact ih x xs h
    · rw [if_neg hpa] at h
      cases h
      exact Bool.eq_false_iff.2 hpa

theorem trim_has_nonws (l : List Nat) (h : jsTrim l ≠ []) :
    ∃ c ∈ jsTrim l, jsIsWs c = false := by
  rw [jsTrim] at h ⊢
  cases hd : (l.dropWhile jsIsWs).reverse.dropWhile jsIsWs with
  | nil => exact absurd (by rw [hd]; rfl) h
  | cons x xs =>
    refine ⟨x, ?_, dropWhile_head_not _ _ x xs hd⟩
    simp

theorem listStartsWith_mem : ∀ (hay pat : List Nat),
    listStartsWith hay pat = true → ∀ x ∈ pat, x ∈ hay := by
  intro hay
  induction hay with
  | nil =>
    intro pat h x hx
    cases pat with
    | nil => simp at hx
    | cons d ds => simp [listStartsWith] at h
  | cons c cs ih =>
    intro pat h x hx
    cases pat with
    | nil => simp at hx
    | cons d ds =>
      simp only [listStartsWith, Bool.and_eq_true, beq_iff_eq] at h
      obtain ⟨hcd, hrest⟩ := h
      rcases List.mem_cons.1 hx with hxd | hxds
      · rw [hxd, ← hcd]
        exact List.mem_cons_self c cs
      · exact List.mem_cons_of_mem _ (ih ds hrest x hxds)

theorem jsIncludes_mem : ∀ (hay pat : List Nat),
    jsIncludes hay pat = true → ∀ x ∈ pat, x ∈ hay := by
  intro hay
  induction hay with
  | nil =>
    intro pat h x hx
    cases pat with
    | nil => simp at hx
    | cons d ds => simp [jsIncludes, listStartsWith] at h
  | cons c cs ih =>
    intro pat h x hx
    simp only [jsIncludes, Bool.or_eq_true] at h
    rcases h with h | h
    · exact listStartsWith_mem _ _ h x hx
    · exact List.mem_cons_of_mem _ (ih pat h x hx)

theorem splitWs_all_ws : ∀ (l : List Nat), l.all jsIsWs = true →
    ∀ tok ∈ splitWs l, tok = [] := by
  intro l
  induction l using splitWs.induct with
  | case1 =>
    intro _ tok htok
    simp [splitWs] at htok
    exact htok
  | case2 c hc =>
    intro _ tok htok
    simp [splitWs, hc] at htok
    exact htok
  | case3 c hc =>
    intro h _ _
    simp only [List.all_cons, List.all_nil, Bool.and_eq_true] at h
    exact absurd h.1 hc
  | case4 c d cs hc hd ih =>
    intro h tok htok
    simp only [List.all_cons, Bool.and_eq_true] at h
    simp only [splitWs, hc, hd, if_true] at htok
    exact ih (by simp [List.all_cons, h.2.1, h.2.2]) tok htok
  | case5 c d cs hc hd ih =>
    intro h _ _
    simp only [List.all_cons, Bool.and_eq_true] at h
    exact absurd h.2.1 hd
  | case6 c d cs r hc hr ih =>
    intro h _ _
    simp only [List.all_cons, Bool.and_eq_true] at h
    exact absurd h.1 hc
  | case7 c d cs r hc t ts hr ih =>
    intro h _ _
    simp only [List.all_cons, Bool.and_eq_true] at h
    exact absurd h.1 hc

/-- C6 as stated is false: the one-shot `/api/process-audio` path has no
empty-transcript guard, and with a trigger-word list containing the empty
word the exact strategy matches even the empty transcript
(`"".includes("")` is true in JavaScript), so a match is emitted and the
mailbox is written. -/
theorem empty_trigger_word_matches :
    processAudioDetect (S ("")) [S ("")] = [⟨[], .exactMatch, none, none⟩] ∧
    processAudioStore [S ("")] (some (S ("d"))) (S ("")) 1 emptyMailbox (S ("t0")) (S ("d")) =
      some ⟨S (""), 1, true, some [⟨[], .exactMatch, none, none⟩], S ("t0")⟩ := by
  constructor
  · decide
  · rfl

/-- C6 amended: an empty or whitespace-only transcript produces no match
and no mailbox write on the streaming handler (which guards on
`transcript.trim().length > 0`) unconditionally, and on the
`/api/process-audio` detector provided every configured trigger word is
non-empty after trimming; a trigger word whose trim is empty matches any
transcript. -/
theorem whitespace_transcript_no_trigger
    (triggerWords : List (List Nat)) (deviceId : List Nat) (dev : Option (List Nat))
    (wsOpen : Bool) (m : Mailbox) (now transcript : List Nat) (confidence : ℚ)
    (hws : transcript.all jsIsWs = true)
    (htr : ∀ w ∈ triggerWords, jsTrim w ≠ []) :
    onDeepgramTranscript triggerWords deviceId wsOpen m now transcript confidence = (m, []) ∧
    processAudioDetect transcript triggerWords = [] ∧
    processAudioStore triggerWords dev transcript confidence m now = m := by
  have htrim : jsTrim transcript = [] := trim_nil_of_all_ws _ hws
  have hstream : onDeepgramTranscript triggerWords deviceId wsOpen m now transcript
      confidence = (m, []) := by
    have hg : (!transcript.isEmpty && decide (0 < (jsTrim transcript).length)) = false := by
      simp [htrim]
    simp [onDeepgramTranscript, hg]
  have hlowall : (jsToLower transcript).all jsIsWs = true := by
    rw [all_ws_toLower]
    exact hws
  have htoks : ∀ tok ∈ splitWs (jsToLower transcript), tok = [] :=
    splitWs_all_ws _ hlowall
  have hdet : processAudioDetect transcript triggerWords = [] := by
    simp only [processAudioDetect]
    apply List.flatMap_eq_nil_iff.2
    intro w hw
    obtain ⟨c, hcmem, hcws⟩ := trim_has_nonws w (htr w hw)
    have hcl : jsCharLower c ∈ jsToLower (jsTrim w) := List.mem_map_of_mem _ hcmem
    have hclws : jsIsWs (jsCharLower c) = false := by
      rw [jsIsWs_jsCharLower]
      exact hcws
    have hm1 : jsIncludes (jsToLower transcript) (jsToLower (jsTrim w)) = false := by
      apply Bool.eq_false_iff.2
      intro hinc
      have hmem := jsIncludes_mem _ _ hinc _ hcl
      have hws' := List.all_eq_true.1 hlowall _ hmem
      rw [hclws] at hws'
      cases hws'
    have hm2 : method2Hit (splitWs (jsToLower transcript)) (jsToLower (jsTrim w)) = none := by
      apply List.find?_eq_none.2
      intro tok htok
      have h0 := htoks tok htok
      subst h0
      simp
    have hm3 : method3Hit (splitWs (jsToLower transcript)) (jsToLower (jsTrim w)) = none := by
      apply List.find?_eq_none.2
      intro tok htok
      have h0 := htoks tok htok
      subst h0
      simp
    simp [detectOne, hm1, hm2, hm3]
  refine ⟨hstream, hdet, ?_⟩
  cases dev with
  | none => rfl
  | some d => simp [processAudioStore, hdet]

theorem whitespace_transcript_no_trigger_witness :
    onDeepgramTranscript [S ("alarm")] (S ("d")) true emptyMailbox (S ("t0")) (S ("  ")) 1 =
      (emptyMailbox, []) ∧
    processAudioDetect (S ("  ")) [S ("alarm")] = [] ∧
    processAudioStore [S ("alarm")] (some (S ("d"))) (S ("  ")) 1 emptyMailbox (S ("t0")) =
      emptyMailbox :=
  whitespace_transcript_no_trigger [S ("alarm")] (S ("d")) (some (S ("d"))) true emptyMailbox
    (S ("t0")) (S ("  ")) 1 (by decide) (by decide)

/-- C10: on each of the three write paths — streaming transcript callback,
buffered flush, one-shot HTTP upload — any change to the `deviceResults`
map is a write, to the path's device id, of a record carrying
`triggered: true` together with the transcription, its confidence and the
timestamp, and such a write happens only when the path's detector matched
the transcript. -/
theorem mailbox_only_triggered_results
    (triggerWords : List (List Nat)) (deviceId : List Nat) (dev : Option (List Nat))
    (wsOpen : Bool) (m : Mailbox) (now transcript : List Nat) (confidence : ℚ)
    (textB : Option (List Nat)) (confB : Option ℚ) :
    (∀ d', (onDeepgramTranscript triggerWords deviceId wsOpen m now transcript
        confidence).1 d' ≠ m d' →
      d' = deviceId ∧
      (onDeepgramTranscript triggerWords deviceId wsOpen m now transcript
        confidence).1 d' = some ⟨transcript, confidence, true, none, now⟩ ∧
      checkTriggerWords triggerWords transcript = true) ∧
    (∀ d', (processAssemblyAIResult triggerWords deviceId wsOpen m now textB
        confB).1 d' ≠ m d' →
      ∃ t, textB = some t ∧ d' = deviceId ∧
        (processAssemblyAIResult triggerWords deviceId wsOpen m now textB
          confB).1 d' = some ⟨t, jsOrZero confB, true, none, now⟩ ∧
        checkTriggerWords triggerWords t = true) ∧
    (∀ d', processAudioStore triggerWords dev transcript confidence m now d' ≠ m d' →
      ∃ dd, dev = some dd ∧ d' = dd ∧
        processAudioStore triggerWords dev transcript confidence m now d' =
          some ⟨transcript, confidence, true,
            some (processAudioDetect transcript triggerWords), now⟩ ∧
        processAudioDetect transcript triggerWords ≠ []) := by
  refine ⟨?_, ?_, ?_⟩
  · intro d' hne
    by_cases hg : (!transcript.isEmpty && decide (0 < (jsTrim transcript).length)) = true
    · by_cases hc : checkTriggerWords triggerWords transcript = true
      · by_cases hd : d' = deviceId
        · subst hd
          refine ⟨rfl, ?_, hc⟩
          simp [onDeepgramTranscript, hg, hc, mailboxSet]
        · exfalso
          apply hne
          simp [onDeepgramTranscript, hg, hc, mailboxSet, hd]
      · exfalso
        apply hne
        simp [onDeepgramTranscript, hg, Bool.eq_false_iff.2 hc]
    · exfalso
      apply hne
      simp [onDeepgramTranscript, Bool.eq_false_iff.2 hg]
  · intro d' hne
    cases textB with
    | none => simp [processAssemblyAIResult] at hne
    | some t =>
      by_cases hg : (!t.isEmpty && decide (0 < (jsTrim t).length)) = true
      · by_cases hc : checkTriggerWords triggerWords t = true
        · by_cases hd : d' = deviceId
          · subst hd
            refine ⟨t, rfl, rfl, ?_, hc⟩
            simp [processAssemblyAIResult, hg, hc, mailboxSet]
          · exfalso
            apply hne
            simp [processAssemblyAIResult, hg, hc, mailboxSet, hd]
        · exfalso
          apply hne
          simp [processAssemblyAIResult, hg, Bool.eq_false_iff.2 hc]
      · exfalso
        apply hne
        simp [processAssemblyAIResult, Bool.eq_false_iff.2 hg]
  · intro d' hne
    cases dev with
    | none => simp [processAudioStore] at hne
    | some d =>
      by_cases hg : (!d.isEmpty &&
          !(processAudioDetect transcript triggerWords).isEmpty) = true
      · by_cases hd : d' = d
        · subst hd
          refine ⟨d', rfl, rfl, ?_, ?_⟩
          · simp [processAudioStore, hg, mailboxSet]
          · intro hnil
            rw [hnil] at hg
            simp at hg
        · exfalso
          apply hne
          simp [processAudioStore, hg, mailboxSet, hd]
      · exfalso
        apply hne
        simp [processAudioStore, Bool.eq_false_iff.2 hg]

theorem mailbox_only_triggered_results_witness :
    S ("d") = S ("d") ∧
    (onDeepgramTranscript [S ("alarm")] (S ("d")) true emptyMailbox (S ("t0"))
      (S ("alarm")) 1).1 (S ("d")) = some ⟨S ("alarm"), 1, true, none, S ("t0")⟩ ∧
    checkTriggerWords [S ("alarm")] (S ("alarm")) = true :=
  (mailbox_only_triggered_results [S ("alarm")] (S ("d")) none true emptyMailbox (S ("t0"))
    (S ("alarm")) 1 none none).1 (S ("d")) (by decide)

/-- The true fragment of the update contract: the 400 rejection path
(`words` missing, falsy, or not an array) leaves the configured list
completely unchanged, and a well-formed request (an array of strings)
replaces the whole list by the lower-cased, trimmed new words.  This does
not cover the thrown-`TypeError` path, which clears the list (see the
claim theorem below). -/
theorem trigger_word_update_atomic (words : Option JVal) (current : List (List Nat)) :
    ((updateTriggerWords words current).1 = .rejected →
      (updateTriggerWords words current).2 = current) ∧
    (∀ ss : List (List Nat), words = some (.vArr (ss.map JVal.vStr)) →
      updateTriggerWords words current =
        (.replaced, ss.map (fun s => jsTrim (jsToLower s)))) := by
  constructor
  · intro h
    by_cases hg : (!jvTruthy words || !jvIsArray words) = true
    · simp [updateTriggerWords, hg]
    · obtain ⟨xs, hxs⟩ : ∃ xs, words = some (.vArr xs) := by
        cases words with
        | none => simp [jvTruthy] at hg
        | some v =>
          cases v with
          | vArr xs => exact ⟨xs, rfl⟩
          | vStr s => simp [jvIsArray] at hg
          | vOther t => simp [jvIsArray] at hg
      subst hxs
      rw [updateTriggerWords, if_neg (by simp [hg])] at h ⊢
      cases hml : mapLowerTrim xs with
      | some ws =>
        rw [hml] at h
        cases h
      | none =>
        rw [hml] at h
        cases h
  · intro ss hw
    subst hw
    have hml : mapLowerTrim (ss.map JVal.vStr) =
        some (ss.map (fun s => jsTrim (jsToLower s))) := by
      induction ss with
      | nil => rfl
      | cons a t ih => simp [mapLowerTrim, jvLowerTrim, ih]
    simp [updateTriggerWords, jvTruthy, jvIsArray, hml]

theorem trigger_word_update_atomic_witness :
    (updateTriggerWords none [S ("fire")]).2 = [S ("fire")] ∧
    updateTriggerWords (some (.vArr [JVal.vStr (S (" ALARM "))])) [S ("fire")] =
      (.replaced, [S ("alarm")]) := by
  constructor
  · exact (trigger_word_update_atomic none [S ("fire")]).1 (by decide)
  · exact ((trigger_word_update_atomic (some (.vArr [JVal.vStr (S (" ALARM "))]))
      [S ("fire")]).2 [S (" ALARM ")] rfl).trans (by decide)

/-- C7: the code violates the claimed atomicity.  A truthy array with a
non-string element (modelled `.vOther true`, e.g. the number 123) passes
the handler's validation, `TRIGGER_WORDS.length = 0` executes, and then
`words.map(w => w.toLowerCase().trim())` throws a `TypeError` before
`push`: the handler neither rejects cleanly nor replaces the list — the
previously configured list is left cleared. -/
theorem nonstring_update_clears_list :
    updateTriggerWords (some (.vArr [JVal.vOther true])) [S ("fire")] = (.threw, []) ∧
    [S ("fire")] ≠ ([] : List (List Nat)) := by
  refine ⟨by decide, by decide⟩

/-- C1: the code violates this claim.  `wss.on('connection')` only
overwrites the `deviceConnections` entry; it never closes the previous
connection for the same device id nor its Deepgram channel.  After a
second connection for "dev1", a binary frame on the first connection is
still forwarded to the first closure's Deepgram adapter, and both
sessions are simultaneously live. -/
theorem duplicate_connection_still_forwards :
    (wsRun [.connect 1 (S ("dev1")), .connect 2 (S ("dev1")),
      .binary 1 (S ("pcm"))]).registry (S ("dev1")) = some 2 ∧
    (wsRun [.connect 1 (S ("dev1")), .connect 2 (S ("dev1")),
      .binary 1 (S ("pcm"))]).conns 1 = some ⟨S ("dev1"), true, [S ("pcm")]⟩ ∧
    (wsRun [.connect 1 (S ("dev1")), .connect 2 (S ("dev1")),
      .binary 1 (S ("pcm"))]).conns 2 = some ⟨S ("dev1"), true, []⟩ := by
  refine ⟨by decide, by decide, by decide⟩

/-- C9: the code violates this claim.  The `setInterval` tick handler
checks only that the accumulator is non-empty; it never checks whether a
previous `processAssemblyAIBuffer` call is still awaited, so a second
flush starts while the first is in flight (`inFlight = 2` after
push-tick-push-tick with no completion in between). -/
theorem concurrent_flushes_possible :
    bufRun [.push (S ("a")), .tick, .push (S ("b")), .tick] =
      ⟨[], 2⟩ ∧ 1 < 2 := by
  refine ⟨by decide, by decide⟩
